import Mathlib

/-!
Shallow embedding of the `runtime-validation` library (`RuntimeValidator` class):
the `PropType` enum, JSON values, surface schemas, `_normalizeSchema`,
`_getTypeOf` and `validate`, together with proofs about the normalizer and the
validation engine.

Modelling conventions:
* JavaScript numbers are modelled as `Int` (no claim depends on float
  behaviour); strings are Lean `String`s.
* A JS object is an insertion-ordered association list; `Object.entries` /
  `Object.keys` iterate it in list order, property lookup takes the first
  binding.
* The surface `Schema` type is an inductive: a bare `PropType`, an array
  literal, an object node carrying the reserved fields
  (`dataType`/`oneOf`/`properties`/`items`/`additionalProperties`/`optional`/
  `allowedValues`) as optional fields plus `extra`, the non-reserved keys of an
  implicit object literal (the README documents that shorthand object literals
  must not use reserved keywords as property names).  `Schema.undefVal` is the JS
  `undefined` value, which reaches the normalizer as `schema[0]` of an empty
  array literal and is passed through unchanged by the fallback.
* The process-wide `strict` flag is passed as an explicit parameter (it is
  constant during one single-threaded `validate` call).
* `validate` takes a fuel parameter (first argument) to make the recursion
  structural; `VOut.out` marks fuel exhaustion (an artifact of the embedding),
  `VOut.thrown` models a JavaScript `TypeError` propagating out of the call.
-/

namespace RV

/-- The seven primitive type tags (`PropType` enum). -/
inductive PropType where
  | UNDEFINED
  | NULL
  | BOOLEAN
  | NUMBER
  | STRING
  | ARRAY
  | OBJECT
deriving DecidableEq, Repr

/-- The string value of each `PropType` enum member. -/
def PropType.str : PropType → String
  | .UNDEFINED => "undefined"
  | .NULL => "null"
  | .BOOLEAN => "boolean"
  | .NUMBER => "number"
  | .STRING => "string"
  | .ARRAY => "array"
  | .OBJECT => "object"

/-- `PrimitiveValue`: string | number | boolean | null | undefined. -/
inductive Prim where
  | str (s : String)
  | num (n : Int)
  | bool (b : Bool)
  | null
  | undefVal
deriving DecidableEq, Repr

/-- `JsonValue`: a primitive, an array, or an object (ordered key/value list). -/
inductive JsonValue where
  | undefVal
  | null
  | bool (b : Bool)
  | num (n : Int)
  | str (s : String)
  | arr (xs : List JsonValue)
  | obj (fields : List (String × JsonValue))

/-- `data === undefined`. -/
def JsonValue.isUndef : JsonValue → Bool
  | .undefVal => true
  | _ => false

/-- `data === null`. -/
def JsonValue.isNull : JsonValue → Bool
  | .null => true
  | _ => false

/-- `Array.isArray(data)`. -/
def JsonValue.isArr : JsonValue → Bool
  | .arr _ => true
  | _ => false

/-- The cast `data as JsonObject` followed by entry access (dead for
non-objects; the code only applies it after establishing the type). -/
def JsonValue.asObj : JsonValue → List (String × JsonValue)
  | .obj fields => fields
  | _ => []

/-- The cast of `data` to an array (dead for non-arrays). -/
def JsonValue.asArr : JsonValue → List JsonValue
  | .arr xs => xs
  | _ => []

/-- `dataObj[key]`: first binding of `key`, or the undefined value. -/
def jsGet (fields : List (String × JsonValue)) (k : String) : JsonValue :=
  match fields.find? (fun p => p.1 == k) with
  | some p => p.2
  | none => .undefVal

/-- `_getTypeOf`: `typeof data`, with the generic object type discerned into
null, array or object. -/
def getTypeOf : JsonValue → PropType
  | .undefVal => .UNDEFINED
  | .null => .NULL
  | .bool _ => .BOOLEAN
  | .num _ => .NUMBER
  | .str _ => .STRING
  | .arr _ => .ARRAY
  | .obj _ => .OBJECT

/-- `String(data)` for a primitive; arrays stringify as the comma-join of
their elements (with null/undefined elements joined as empty strings),
plain objects as `[object Object]`. -/
def jsStr : JsonValue → String
  | .undefVal => "undefined"
  | .null => "null"
  | .bool b => if b then "true" else "false"
  | .num n => toString n
  | .str s => s
  | .arr xs =>
      String.intercalate ","
        (xs.attach.map (fun x =>
          if x.1.isUndef || x.1.isNull then "" else jsStr x.1))
  | .obj _ => "[object Object]"
decreasing_by
  have := List.sizeOf_lt_of_mem x.2
  simp at this ⊢
  omega

/-- `allowedValues.includes(data)`: SameValueZero comparison of `data` with
each primitive in the list (an object or array equals no primitive). -/
def primIncludes (vs : List Prim) (data : JsonValue) : Bool :=
  vs.any fun p =>
    match p, data with
    | .str a, .str b => a == b
    | .num a, .num b => a == b
    | .bool a, .bool b => a == b
    | .null, .null => true
    | .undefVal, .undefVal => true
    | _, _ => false

/-- One element of `allowedValues.join(', ')`: `Array.prototype.join` renders
null and undefined elements as the empty string. -/
def primJoinStr : Prim → String
  | .str s => s
  | .num n => toString n
  | .bool b => if b then "true" else "false"
  | .null => ""
  | .undefVal => ""

/-- `allowedValues.join(', ')`. -/
def primsJoin (vs : List Prim) : String :=
  String.intercalate ", " (vs.map primJoinStr)

/-- ``path ? `${path}.${key}` : key``. -/
def joinPath (path key : String) : String :=
  if path = "" then key else path ++ "." ++ key

/-- The `ValidationError` record. -/
structure VError where
  path : String
  expected : String
  received : String
  message : String
deriving DecidableEq, Repr

/-- The reserved fields an object-shaped surface schema may carry.  `extra`
holds the non-reserved keys of an implicit object literal. -/
structure SNode (S : Type) where
  dataType : Option PropType := none
  oneOf : Option (List S) := none
  properties : Option (List (String × S)) := none
  items : Option S := none
  additionalProperties : Option Bool := none
  optional : Bool := false
  allowedValues : Option (List Prim) := none
  extra : List (String × S) := []

/-- The surface `Schema` type: a bare `PropType`, an array literal, an
object-shaped schema, or the JS undefined value (reachable as `schema[0]` of
an empty array literal). -/
inductive Schema where
  | undefVal
  | prop (t : PropType)
  | arr (xs : List Schema)
  | node (n : SNode Schema)

lemma mem_pairs_sizeOf_lt {l : List (String × Schema)} {p : String × Schema}
    (h : p ∈ l) : sizeOf p.2 < sizeOf l := by
  have h1 := List.sizeOf_lt_of_mem h
  obtain ⟨a, b⟩ := p
  simp only [Prod.mk.sizeOf_spec] at h1
  simp only []
  omega

lemma sizeOf_lt_of_oneOf {n : SNode Schema} {alts : List Schema}
    (h : n.oneOf = some alts) : sizeOf alts < sizeOf n := by
  obtain ⟨a1, a2, a3, a4, a5, a6, a7, a8⟩ := n
  simp only [SNode.oneOf] at h
  subst h
  simp [SNode.mk.sizeOf_spec]
  omega

lemma sizeOf_lt_of_properties {n : SNode Schema} {ps : List (String × Schema)}
    (h : n.properties = some ps) : sizeOf ps < sizeOf n := by
  obtain ⟨a1, a2, a3, a4, a5, a6, a7, a8⟩ := n
  simp only [SNode.properties] at h
  subst h
  simp [SNode.mk.sizeOf_spec]
  omega

lemma sizeOf_extra_lt (n : SNode Schema) : sizeOf n.extra < sizeOf n := by
  obtain ⟨a1, a2, a3, a4, a5, a6, a7, a8⟩ := n
  simp [SNode.mk.sizeOf_spec, SNode.extra]

/-- `_normalizeSchema(schema)`, with the process-wide `strict` flag passed
explicitly.  Branches in source order: bare `PropType`; array literal
(`length > 1` becomes an array of a union, otherwise the single element --
`schema[0]`, which is the undefined value when the literal is empty -- is
normalized as the item schema; the source's separate nested-array case
produces the same result and is folded into the second branch); object
without `dataType` and without `oneOf` (implicit object schema: every entry
becomes a property, with array-literal values expanded inline); object with
`oneOf` (spread, normalize each alternative); object with `properties`
(spread, normalize each property); anything else unchanged.  The list
traversals of the source's `map` calls are expressed as the mutual helpers
`normalizeList` / `normalizePairs` / `normalizeImplicitProps`. -/
def normalizerPlan : Unit := ()

mutual

def normalizeSchema (strict : Bool) : Schema → Schema
  | .undefVal => .undefVal
  | .prop t => .node { dataType := some t }
  | .arr xs =>
    if xs.length > 1 then
      .node
        { dataType := some .ARRAY,
          items := some (.node { oneOf := some (normalizeList strict xs) }) }
    else
      match xs with
      | [] =>
        .node
          { dataType := some .ARRAY,
            items := some (normalizeSchema strict .undefVal) }
      | x :: _ =>
        .node
          { dataType := some .ARRAY,
            items := some (normalizeSchema strict x) }
  | .node n =>
    if n.dataType.isNone && n.oneOf.isNone then
      .node
        { dataType := some .OBJECT,
          properties := some (normalizeImplicitProps strict n.extra),
          additionalProperties := some (!strict) }
    else
      match ho : n.oneOf with
      | some alts =>
        .node { n with oneOf := some (normalizeList strict alts) }
      | none =>
        match hp : n.properties with
        | some ps =>
          .node { n with properties := some (normalizePairs strict ps) }
        | none => .node n
termination_by s => 2 * sizeOf s
decreasing_by
  all_goals try (have h9 := sizeOf_extra_lt n; simp <;> omega)
  all_goals try (have h9 := sizeOf_lt_of_oneOf ho; simp <;> omega)
  all_goals try (have h9 := sizeOf_lt_of_properties hp; simp <;> omega)
  all_goals (simp <;> omega)

/-- `schemas.map((s) => this._normalizeSchema(s))`. -/
def normalizeList (strict : Bool) : List Schema → List Schema
  | [] => []
  | x :: xs => normalizeSchema strict x :: normalizeList strict xs
termination_by l => 2 * sizeOf l
decreasing_by
  all_goals (simp <;> omega)

/-- The normalization of the entries of an explicit `properties` map. -/
def normalizePairs (strict : Bool) : List (String × Schema) → List (String × Schema)
  | [] => []
  | (k, v) :: rest => (k, normalizeSchema strict v) :: normalizePairs strict rest
termination_by l => 2 * sizeOf l
decreasing_by
  all_goals (simp <;> omega)

/-- The normalization of the entries of an implicit object literal. -/
def normalizeImplicitProps (strict : Bool) :
    List (String × Schema) → List (String × Schema)
  | [] => []
  | (k, v) :: rest => (k, normPropVal strict v) :: normalizeImplicitProps strict rest
termination_by l => 2 * sizeOf l
decreasing_by
  all_goals (simp <;> omega)

/-- One property value inside the implicit object branch: an array-literal
value is expanded inline, any other value is normalized recursively. -/
def normPropVal (strict : Bool) : Schema → Schema
  | .arr vs =>
    .node { dataType := some .ARRAY, items := some (normArrItems strict vs) }
  | s => normalizeSchema strict s
termination_by s => 2 * sizeOf s + 1
decreasing_by
  all_goals (simp <;> omega)

/-- ``value.length === 1 ? normalize(value[0]) : { oneOf: value.map(normalize) }``. -/
def normArrItems (strict : Bool) : List Schema → Schema
  | [v] => normalizeSchema strict v
  | vs => .node { oneOf := some (normalizeList strict vs) }
termination_by l => 2 * sizeOf l + 1
decreasing_by
  all_goals (simp <;> omega)

end

lemma normalizeList_eq_map (b : Bool) (l : List Schema) :
    normalizeList b l = l.map (normalizeSchema b) := by
  induction l with
  | nil => simp [normalizeList]
  | cons x xs ih => simp [normalizeList, ih]

lemma normalizePairs_eq_map (b : Bool) (l : List (String × Schema)) :
    normalizePairs b l = l.map (fun q => (q.1, normalizeSchema b q.2)) := by
  induction l with
  | nil => simp [normalizePairs]
  | cons p rest ih =>
    obtain ⟨k, v⟩ := p
    simp [normalizePairs, ih]

lemma normalizeImplicitProps_eq_map (b : Bool) (l : List (String × Schema)) :
    normalizeImplicitProps b l = l.map (fun q => (q.1, normPropVal b q.2)) := by
  induction l with
  | nil => simp [normalizeImplicitProps]
  | cons p rest ih =>
    obtain ⟨k, v⟩ := p
    simp [normalizeImplicitProps, ih]

@[simp] lemma normalizeSchema_undef (b : Bool) :
    normalizeSchema b .undefVal = .undefVal := by
  simp only [normalizeSchema]

@[simp] lemma normalizeSchema_prop (b : Bool) (t : PropType) :
    normalizeSchema b (.prop t) = .node { dataType := some t } := by
  simp only [normalizeSchema]

@[simp] lemma normalizeSchema_arr_nil (b : Bool) :
    normalizeSchema b (.arr []) =
      .node { dataType := some .ARRAY, items := some .undefVal } := by
  simp [normalizeSchema]

@[simp] lemma normalizeSchema_arr_one (b : Bool) (x : Schema) :
    normalizeSchema b (.arr [x]) =
      .node { dataType := some .ARRAY, items := some (normalizeSchema b x) } := by
  simp [normalizeSchema]

@[simp] lemma normalizeSchema_arr_big (b : Bool) (xs : List Schema)
    (h : xs.length > 1) :
    normalizeSchema b (.arr xs) =
      .node
        { dataType := some .ARRAY,
          items := some (.node { oneOf := some (xs.map (normalizeSchema b)) }) } := by
  rcases xs with _ | ⟨x, _ | ⟨y, rest⟩⟩
  · simp at h
  · simp at h
  · have hc : (x :: y :: rest).length > 1 := by simp
    simp only [normalizeSchema, if_pos hc]
    simp [normalizeList_eq_map]

@[simp] lemma normalizeSchema_node_implicit (b : Bool) (n : SNode Schema)
    (h1 : n.dataType = none) (h2 : n.oneOf = none) :
    normalizeSchema b (.node n) =
      .node
        { dataType := some .OBJECT,
          properties := some (n.extra.map (fun q => (q.1, normPropVal b q.2))),
          additionalProperties := some (!b) } := by
  simp only [normalizeSchema]
  simp [h1, h2, normalizeImplicitProps_eq_map]

@[simp] lemma normalizeSchema_node_union (b : Bool) (n : SNode Schema)
    (alts : List Schema) (ho : n.oneOf = some alts) :
    normalizeSchema b (.node n) =
      .node { n with oneOf := some (alts.map (normalizeSchema b)) } := by
  simp only [normalizeSchema]
  rw [show (n.dataType.isNone && n.oneOf.isNone) = false by simp [ho]]
  simp only [Bool.false_eq_true, if_false]
  split
  · rename_i alts2 heq
    rw [ho] at heq
    injection heq with h3
    subst h3
    rw [normalizeList_eq_map]
  · rename_i heq
    rw [ho] at heq
    exact Option.noConfusion heq

@[simp] lemma normalizeSchema_node_object (b : Bool) (n : SNode Schema)
    (dt : PropType) (ps : List (String × Schema))
    (ho : n.oneOf = none) (hd : n.dataType = some dt) (hp : n.properties = some ps) :
    normalizeSchema b (.node n) =
      .node { n with properties := some (ps.map (fun q => (q.1, normalizeSchema b q.2))) } := by
  simp only [normalizeSchema]
  rw [show (n.dataType.isNone && n.oneOf.isNone) = false by simp [hd]]
  simp only [Bool.false_eq_true, if_false]
  split
  · rename_i alts2 heq
    rw [ho] at heq
    exact Option.noConfusion heq
  · rename_i heq
    split
    · rename_i ps2 heq2
      rw [hp] at heq2
      injection heq2 with h3
      subst h3
      rw [normalizePairs_eq_map]
    · rename_i heq2
      rw [hp] at heq2
      exact Option.noConfusion heq2

@[simp] lemma normalizeSchema_node_plain (b : Bool) (n : SNode Schema)
    (dt : PropType)
    (ho : n.oneOf = none) (hd : n.dataType = some dt) (hp : n.properties = none) :
    normalizeSchema b (.node n) = .node n := by
  simp only [normalizeSchema]
  rw [show (n.dataType.isNone && n.oneOf.isNone) = false by simp [hd]]
  simp only [Bool.false_eq_true, if_false]
  split
  · rename_i alts2 heq
    rw [ho] at heq
    exact Option.noConfusion heq
  · rename_i heq
    split
    · rename_i ps2 heq2
      rw [hp] at heq2
      exact Option.noConfusion heq2
    · rfl

@[simp] lemma normPropVal_arr (b : Bool) (vs : List Schema) :
    normPropVal b (.arr vs) =
      .node { dataType := some .ARRAY, items := some (normArrItems b vs) } := by
  simp only [normPropVal]

@[simp] lemma normArrItems_one (b : Bool) (v : Schema) :
    normArrItems b [v] = normalizeSchema b v := by
  simp only [normArrItems]

@[simp] lemma normArrItems_nil (b : Bool) :
    normArrItems b [] = .node { oneOf := some [] } := by
  simp only [normArrItems, normalizeList]

@[simp] lemma normArrItems_big (b : Bool) (v1 v2 : Schema) (rest : List Schema) :
    normArrItems b (v1 :: v2 :: rest) =
      .node { oneOf := some ((v1 :: v2 :: rest).map (normalizeSchema b)) } := by
  simp only [normArrItems, normalizeList_eq_map]

lemma sizeOf_alt_lt {n : SNode Schema} {alts : List Schema}
    (h : n.oneOf = some alts) {a : Schema} (ha : a ∈ alts) :
    sizeOf a < sizeOf (Schema.node n) := by
  have h1 := List.sizeOf_lt_of_mem ha
  have h2 := sizeOf_lt_of_oneOf h
  simp only [Schema.node.sizeOf_spec]
  omega

lemma sizeOf_propval_lt {n : SNode Schema} {ps : List (String × Schema)}
    (h : n.properties = some ps) {q : String × Schema} (hq : q ∈ ps) :
    sizeOf q.2 < sizeOf (Schema.node n) := by
  have h1 := mem_pairs_sizeOf_lt hq
  have h2 := sizeOf_lt_of_properties h
  simp only [Schema.node.sizeOf_spec]
  omega

lemma sizeOf_extraval_lt {n : SNode Schema} {q : String × Schema}
    (hq : q ∈ n.extra) : sizeOf q.2 < sizeOf (Schema.node n) := by
  have h1 := mem_pairs_sizeOf_lt hq
  have h2 := sizeOf_extra_lt n
  simp only [Schema.node.sizeOf_spec]
  omega

lemma normalizeSchema_idem_aux :
    ∀ (N : Nat) (s : Schema), sizeOf s ≤ N →
      ∀ b1 b2, normalizeSchema b1 (normalizeSchema b2 s) = normalizeSchema b2 s := by
  intro N
  induction N with
  | zero =>
    intro s hs b1 b2
    exfalso
    cases s <;> simp at hs
  | succ N ih =>
    intro s hs b1 b2
    cases s with
    | undefVal => simp
    | prop t =>
      simp only [normalizeSchema_prop]
      exact normalizeSchema_node_plain b1 _ t rfl rfl rfl
    | arr xs =>
      match xs with
      | [] =>
        simp only [normalizeSchema_arr_nil]
        exact normalizeSchema_node_plain b1 _ .ARRAY rfl rfl rfl
      | [x] =>
        simp only [normalizeSchema_arr_one]
        exact normalizeSchema_node_plain b1 _ .ARRAY rfl rfl rfl
      | x :: y :: rest =>
        rw [normalizeSchema_arr_big b2 _ (by simp)]
        exact normalizeSchema_node_plain b1 _ .ARRAY rfl rfl rfl
    | node n =>
      rcases ho : n.oneOf with _ | alts
      · rcases hd : n.dataType with _ | dt
        · -- implicit object schema
          rw [normalizeSchema_node_implicit b2 n hd ho]
          rw [normalizeSchema_node_object b1 _ .OBJECT _ rfl rfl rfl]
          have hL : (n.extra.map (fun q => (q.1, normPropVal b2 q.2))).map
                (fun q => (q.1, normalizeSchema b1 q.2)) =
              n.extra.map (fun q => (q.1, normPropVal b2 q.2)) := by
            rw [List.map_map]
            apply List.map_congr_left
            intro q hq
            simp only [Function.comp_apply]
            congr 1
            match hv : q.2 with
            | .arr vs =>
              simp only [normPropVal_arr]
              exact normalizeSchema_node_plain b1 _ .ARRAY rfl rfl rfl
            | .undefVal => simp [normPropVal]
            | .prop t =>
              simp only [normPropVal]
              have hlt := sizeOf_extraval_lt hq
              rw [hv] at hlt
              exact ih _ (by omega) b1 b2
            | .node m =>
              simp only [normPropVal]
              have hlt := sizeOf_extraval_lt hq
              rw [hv] at hlt
              exact ih _ (by omega) b1 b2
          rw [hL]
        · -- explicit schema with dataType, no oneOf
          rcases hp : n.properties with _ | ps
          · rw [normalizeSchema_node_plain b2 n dt ho hd hp]
            exact normalizeSchema_node_plain b1 n dt ho hd hp
          · rw [normalizeSchema_node_object b2 n dt ps ho hd hp]
            rw [normalizeSchema_node_object b1
              { n with properties := some (ps.map (fun q => (q.1, normalizeSchema b2 q.2))) }
              dt (ps.map (fun q => (q.1, normalizeSchema b2 q.2))) ho hd rfl]
            have hL : (ps.map (fun q => (q.1, normalizeSchema b2 q.2))).map
                  (fun q => (q.1, normalizeSchema b1 q.2)) =
                ps.map (fun q => (q.1, normalizeSchema b2 q.2)) := by
              rw [List.map_map]
              apply List.map_congr_left
              intro q hq
              simp only [Function.comp_apply]
              congr 1
              have hlt := sizeOf_propval_lt hp hq
              exact ih _ (by omega) b1 b2
            rw [hL]
      · -- union schema
        rw [normalizeSchema_node_union b2 n alts ho]
        rw [normalizeSchema_node_union b1 _ (alts.map (normalizeSchema b2)) rfl]
        have hL : (alts.map (normalizeSchema b2)).map (normalizeSchema b1) =
            alts.map (normalizeSchema b2) := by
          rw [List.map_map]
          apply List.map_congr_left
          intro a ha
          simp only [Function.comp_apply]
          have hlt := sizeOf_alt_lt ho ha
          exact ih _ (by omega) b1 b2
        rw [hL]

mutual

/-- Decides whether every object node of a schema tree carries exactly one of
`dataType` / `oneOf` (the canonical-form invariant), descending into union
alternatives, property maps, item schemas and extra keys. -/
def exactlyOneB : Schema → Bool
  | .undefVal => true
  | .prop _ => true
  | .arr xs => exactlyOneListB xs
  | .node ⟨dt, oo, ps, it, _, _, _, ex⟩ =>
    (dt.isSome ^^ oo.isSome) && exactlyOneOListB oo && exactlyOneOPairsB ps
      && exactlyOneOB it && exactlyOnePairsB ex
termination_by s => 2 * sizeOf s
decreasing_by all_goals (simp <;> omega)

def exactlyOneListB : List Schema → Bool
  | [] => true
  | x :: xs => exactlyOneB x && exactlyOneListB xs
termination_by l => 2 * sizeOf l
decreasing_by all_goals (simp <;> omega)

def exactlyOneOListB : Option (List Schema) → Bool
  | none => true
  | some l => exactlyOneListB l
termination_by o => 2 * sizeOf o + 1
decreasing_by all_goals (simp <;> omega)

def exactlyOnePairsB : List (String × Schema) → Bool
  | [] => true
  | (_, v) :: rest => exactlyOneB v && exactlyOnePairsB rest
termination_by l => 2 * sizeOf l
decreasing_by all_goals (simp <;> omega)

def exactlyOneOPairsB : Option (List (String × Schema)) → Bool
  | none => true
  | some l => exactlyOnePairsB l
termination_by o => 2 * sizeOf o + 1
decreasing_by all_goals (simp <;> omega)

def exactlyOneOB : Option Schema → Bool
  | none => true
  | some s => exactlyOneB s
termination_by o => 2 * sizeOf o + 1
decreasing_by all_goals (simp <;> omega)

end

mutual

/-- The input class on which normalization establishes the exactly-one
invariant: no node carries both `dataType` and `oneOf`, and every subtree
that normalization passes through unchanged (the fields other than `oneOf`
of an explicit union node, the fields other than `properties` of an explicit
object node, and the whole of a fallback node) already satisfies the
invariant. -/
def preOK : Schema → Bool
  | .undefVal => true
  | .prop _ => true
  | .arr xs => preOKList xs
  | .node ⟨some _, some _, _, _, _, _, _, _⟩ => false
  | .node ⟨none, none, _, _, _, _, _, ex⟩ => preOKPairs ex
  | .node ⟨none, some alts, ps, it, _, _, _, ex⟩ =>
    preOKList alts && exactlyOneOPairsB ps && exactlyOneOB it && exactlyOnePairsB ex
  | .node ⟨some _, none, some ps2, it, _, _, _, ex⟩ =>
    preOKPairs ps2 && exactlyOneOB it && exactlyOnePairsB ex
  | .node ⟨some dt, none, none, it, ap, op, av, ex⟩ =>
    exactlyOneB (.node ⟨some dt, none, none, it, ap, op, av, ex⟩)
termination_by s => 2 * sizeOf s
decreasing_by all_goals (simp <;> omega)

def preOKList : List Schema → Bool
  | [] => true
  | x :: xs => preOK x && preOKList xs
termination_by l => 2 * sizeOf l
decreasing_by all_goals (simp <;> omega)

def preOKPairs : List (String × Schema) → Bool
  | [] => true
  | (_, v) :: rest => preOK v && preOKPairs rest
termination_by l => 2 * sizeOf l
decreasing_by all_goals (simp <;> omega)

end

lemma exactlyOneListB_eq_all (l : List Schema) :
    exactlyOneListB l = l.all exactlyOneB := by
  induction l with
  | nil => simp [exactlyOneListB]
  | cons x xs ih => simp [exactlyOneListB, ih]

lemma exactlyOnePairsB_eq_all (l : List (String × Schema)) :
    exactlyOnePairsB l = l.all (fun q => exactlyOneB q.2) := by
  induction l with
  | nil => simp [exactlyOnePairsB]
  | cons p rest ih =>
    obtain ⟨k, v⟩ := p
    simp [exactlyOnePairsB, ih]

lemma preOKList_eq_all (l : List Schema) :
    preOKList l = l.all preOK := by
  induction l with
  | nil => simp [preOKList]
  | cons x xs ih => simp [preOKList, ih]

lemma preOKPairs_eq_all (l : List (String × Schema)) :
    preOKPairs l = l.all (fun q => preOK q.2) := by
  induction l with
  | nil => simp [preOKPairs]
  | cons p rest ih =>
    obtain ⟨k, v⟩ := p
    simp [preOKPairs, ih]

lemma exactlyOne_norm_aux :
    ∀ (N : Nat) (s : Schema), sizeOf s ≤ N → ∀ b, preOK s = true →
      exactlyOneB (normalizeSchema b s) = true := by
  intro N
  induction N with
  | zero =>
    intro s hs b hpre
    exfalso
    cases s <;> simp at hs
  | succ N ih =>
    intro s hs b hpre
    have hmap : ∀ (l : List Schema), (∀ a ∈ l, sizeOf a ≤ N) →
        (∀ a ∈ l, preOK a = true) →
        exactlyOneListB (l.map (normalizeSchema b)) = true := by
      intro l hsz hok
      rw [exactlyOneListB_eq_all, List.all_eq_true]
      intro z hz
      rw [List.mem_map] at hz
      obtain ⟨a, ha, rfl⟩ := hz
      exact ih a (hsz a ha) b (hok a ha)
    have hmapPairs : ∀ (l : List (String × Schema)), (∀ q ∈ l, sizeOf q.2 ≤ N) →
        (∀ q ∈ l, preOK q.2 = true) →
        exactlyOnePairsB (l.map (fun q => (q.1, normalizeSchema b q.2))) = true := by
      intro l hsz hok
      rw [exactlyOnePairsB_eq_all, List.all_eq_true]
      intro z hz
      rw [List.mem_map] at hz
      obtain ⟨q, hq, rfl⟩ := hz
      exact ih q.2 (hsz q hq) b (hok q hq)
    have hmapProp : ∀ (l : List (String × Schema)), (∀ q ∈ l, sizeOf q.2 ≤ N) →
        (∀ q ∈ l, preOK q.2 = true) →
        exactlyOnePairsB (l.map (fun q => (q.1, normPropVal b q.2))) = true := by
      intro l hsz hok
      rw [exactlyOnePairsB_eq_all, List.all_eq_true]
      intro z hz
      rw [List.mem_map] at hz
      obtain ⟨q, hq, rfl⟩ := hz
      have hszq := hsz q hq
      have hokq := hok q hq
      match hv : q.2 with
      | .arr vs =>
        rw [hv] at hszq hokq
        simp only [preOK] at hokq
        have hvs : ∀ a ∈ vs, preOK a = true := by
          rw [preOKList_eq_all, List.all_eq_true] at hokq
          exact hokq
        have hvsz : ∀ a ∈ vs, sizeOf a ≤ N := by
          intro a ha
          have h0 := List.sizeOf_lt_of_mem ha
          simp at hszq
          omega
        simp only [normPropVal_arr]
        have hitems : exactlyOneB (normArrItems b vs) = true := by
          rcases vs with _ | ⟨v, _ | ⟨w, vrest⟩⟩
          · simp [normArrItems_nil, exactlyOneB, exactlyOneOListB, exactlyOneListB,
              exactlyOneOPairsB, exactlyOneOB, exactlyOnePairsB]
          · rw [normArrItems_one]
            exact ih v (hvsz v (by simp)) b (hvs v (by simp))
          · rw [normArrItems_big]
            have hl := hmap (v :: w :: vrest) hvsz hvs
            simp only [List.map_cons] at hl
            simp [exactlyOneB, exactlyOneOListB, exactlyOneOPairsB, exactlyOneOB,
              exactlyOnePairsB, hl]
        simp [exactlyOneB, exactlyOneOListB, exactlyOneOPairsB, exactlyOneOB,
          exactlyOnePairsB, hitems]
      | .undefVal => simp [normPropVal, exactlyOneB]
      | .prop t =>
        simp [normPropVal, exactlyOneB, exactlyOneOListB, exactlyOneOPairsB,
          exactlyOneOB, exactlyOnePairsB]
      | .node m =>
        simp only [normPropVal]
        rw [hv] at hszq hokq
        exact ih _ hszq b hokq
    cases s with
    | undefVal => simp [exactlyOneB]
    | prop t =>
      simp [exactlyOneB, exactlyOneOListB, exactlyOneOPairsB, exactlyOneOB,
        exactlyOnePairsB, exactlyOneListB]
    | arr xs =>
      rcases xs with _ | ⟨x, _ | ⟨y, rest⟩⟩
      · simp [exactlyOneB, exactlyOneOListB, exactlyOneOPairsB, exactlyOneOB,
          exactlyOnePairsB, exactlyOneListB]
      · rw [normalizeSchema_arr_one]
        have hx : preOK x = true := by
          simp [preOK, preOKList] at hpre
          exact hpre
        have hs2 : sizeOf x ≤ N := by
          simp at hs
          omega
        simp [exactlyOneB, exactlyOneOListB, exactlyOneOPairsB, exactlyOneOB,
          exactlyOnePairsB, exactlyOneListB]
        exact ih x hs2 b hx
      · rw [normalizeSchema_arr_big b _ (by simp)]
        have hsz : ∀ a ∈ x :: y :: rest, sizeOf a ≤ N := by
          intro a ha
          have h0 := List.sizeOf_lt_of_mem ha
          simp at hs h0
          omega
        have hok : ∀ a ∈ x :: y :: rest, preOK a = true := by
          simp only [preOK] at hpre
          rw [preOKList_eq_all, List.all_eq_true] at hpre
          exact hpre
        have hl := hmap _ hsz hok
        simp only [List.map_cons] at hl
        simp [exactlyOneB, exactlyOneOListB, exactlyOneOPairsB, exactlyOneOB,
          exactlyOnePairsB, hl]
    | node n =>
      obtain ⟨dt, oo, ps, it, ap, op, av, ex⟩ := n
      rcases oo with _ | alts
      · rcases dt with _ | dt
        · -- implicit object literal
          rw [normalizeSchema_node_implicit b _ rfl rfl]
          simp only [preOK] at hpre
          have hok : ∀ q ∈ ex, preOK q.2 = true := by
            rw [preOKPairs_eq_all, List.all_eq_true] at hpre
            exact hpre
          have hsz : ∀ q ∈ ex, sizeOf q.2 ≤ N := by
            intro q hq
            have h0 := mem_pairs_sizeOf_lt hq
            simp at hs
            omega
          have hp := hmapProp ex hsz hok
          simp [exactlyOneB, exactlyOneOListB, exactlyOneOPairsB, exactlyOneOB,
            exactlyOnePairsB, hp]
        · rcases ps with _ | ps2
          · -- fallback node, returned unchanged
            rw [normalizeSchema_node_plain b _ dt rfl rfl rfl]
            simpa [preOK] using hpre
          · -- explicit object schema
            rw [normalizeSchema_node_object b _ dt ps2 rfl rfl rfl]
            simp only [preOK, Bool.and_eq_true] at hpre
            obtain ⟨⟨hp1, hp2⟩, hp3⟩ := hpre
            have hok : ∀ q ∈ ps2, preOK q.2 = true := by
              rw [preOKPairs_eq_all, List.all_eq_true] at hp1
              exact hp1
            have hsz : ∀ q ∈ ps2, sizeOf q.2 ≤ N := by
              intro q hq
              have h0 := mem_pairs_sizeOf_lt hq
              simp at hs
              omega
            have hps := hmapPairs ps2 hsz hok
            simp [exactlyOneB, exactlyOneOListB, exactlyOneOPairsB, exactlyOneOB,
              exactlyOnePairsB, hps, hp2, hp3]
      · rcases dt with _ | dt
        · -- union schema
          rw [normalizeSchema_node_union b _ alts rfl]
          simp only [preOK, Bool.and_eq_true] at hpre
          obtain ⟨⟨⟨hp1, hp2⟩, hp3⟩, hp4⟩ := hpre
          have hok : ∀ a ∈ alts, preOK a = true := by
            rw [preOKList_eq_all, List.all_eq_true] at hp1
            exact hp1
          have hsz : ∀ a ∈ alts, sizeOf a ≤ N := by
            intro a ha
            have h0 := List.sizeOf_lt_of_mem ha
            simp at hs h0
            omega
          have hl := hmap alts hsz hok
          simp [exactlyOneB, exactlyOneOListB, exactlyOneOPairsB, exactlyOneOB,
            exactlyOnePairsB, hl, hp2, hp3, hp4]
        · -- both dataType and oneOf present: excluded
          simp [preOK] at hpre

/-- The `expected` string of a type-mismatch error: the `dataType` enum value
(the source's `dataType === PropType.OBJECT ? 'object' : dataType` is the
identity, because the enum value of `OBJECT` is the string `object`); a
missing `dataType` stringifies as `undefined`. -/
def expectedStr : Option PropType → String
  | some dt => dt.str
  | none => "undefined"

/-- The type-mismatch error (`Expected type X but received Y`). -/
def mkTypeErr (path : String) (expected : Option PropType) (received : PropType) : VError :=
  { path := path, expected := expectedStr expected, received := received.str,
    message := "Expected type " ++ expectedStr expected ++ " but received " ++ received.str }

/-- The value-restriction error (`Value V is not in the allowed set of values`). -/
def mkValueErr (path : String) (vs : List Prim) (data : JsonValue) : VError :=
  { path := path, expected := "one of [" ++ primsJoin vs ++ "]",
    received := jsStr data,
    message := "Value " ++ jsStr data ++ " is not in the allowed set of values" }

/-- The union error for an undefined non-optional value. -/
def mkUnionUndefErr (path : String) (count : Nat) : VError :=
  { path := path, expected := "one of " ++ toString count ++ " possible types",
    received := "undefined",
    message := "Value does not match any of the allowed schemas" }

/-- The generic union error when no alternative matches. -/
def mkUnionErr (path : String) (count : Nat) (received : PropType) : VError :=
  { path := path, expected := "one of " ++ toString count ++ " possible types",
    received := received.str,
    message := "Value does not match any of the allowed schemas" }

/-- The unexpected-property error. -/
def mkUnexpectedErr (path key : String) (received : PropType) : VError :=
  { path := joinPath path key, expected := "undefined", received := received.str,
    message := "Unexpected property \"" ++ key ++ "\"" }

/-- The `Expected object but received T` error of the object structural check. -/
def mkExpObjErr (path : String) (received : PropType) : VError :=
  { path := path, expected := "object", received := received.str,
    message := "Expected object but received " ++ received.str }

/-- The `Expected array but received T` error of the array structural check. -/
def mkExpArrErr (path : String) (received : PropType) : VError :=
  { path := path, expected := "array", received := received.str,
    message := "Expected array but received " ++ received.str }

/-- The outcome of one `validate` call: a returned error list, a propagating
JavaScript `TypeError`, or fuel exhaustion (an artifact of the embedding,
never produced when the fuel exceeds the recursion depth). -/
inductive VOut where
  | ok (errs : List VError)
  | thrown
  | out
deriving DecidableEq, Repr

/-- The outcome of the union loop over `oneOf` alternatives. -/
inductive AltsOut where
  | matched
  | failed (collected : List VError)
  | thrown
  | out
deriving DecidableEq, Repr

/-- The `for (const subSchema of unionSchema.oneOf)` loop: the first
alternative validating with zero errors wins (`matched`); otherwise each
alternative's errors are collected in order; a thrown error or fuel
exhaustion propagates. -/
def tryAlts (rec : Schema → VOut) : List Schema → List VError → AltsOut
  | [], acc => .failed acc
  | a :: rest, acc =>
    match rec a with
    | .ok [] => .matched
    | .ok es => tryAlts rec rest (acc ++ es)
    | .thrown => .thrown
    | .out => .out

/-- The loop over the declared properties of an object schema, appending each
property's errors; exceptions abort the loop and propagate. -/
def runProps (rec : JsonValue → Schema → String → VOut)
    (fields : List (String × JsonValue)) (path : String) :
    List (String × Schema) → VOut
  | [] => .ok []
  | (key, psch) :: rest =>
    match rec (jsGet fields key) psch (joinPath path key) with
    | .ok es =>
      match runProps rec fields path rest with
      | .ok es2 => .ok (es ++ es2)
      | r => r
    | r => r

/-- The unexpected-property scan: every data key absent from the schema's
`properties` map produces an error, in data-key order. -/
def unexpectedErrs (props : List (String × Schema))
    (fields : List (String × JsonValue)) (path : String) : List VError :=
  (fields.filter (fun fp => !(props.any (fun pp => pp.1 == fp.1)))).map
    (fun fp => mkUnexpectedErr path fp.1 (getTypeOf (jsGet fields fp.1)))

/-- The loop over array elements, appending each element's errors (the
source's `if (itemErrors.length > 0)` guard before pushing is the identity on
the result); exceptions abort the loop and propagate. -/
def runItems (rec : JsonValue → Schema → String → VOut)
    (itemsSchema : Schema) (path : String) : List JsonValue → Nat → VOut
  | [], _ => .ok []
  | x :: rest, i =>
    match rec x itemsSchema (path ++ "[" ++ toString i ++ "]") with
    | .ok es =>
      match runItems rec itemsSchema path rest (i + 1) with
      | .ok es2 => .ok (es ++ es2)
      | r => r
    | r => r

/-- `RuntimeValidator.validate(data, schema, path)`, with the strict flag and
a structural fuel parameter made explicit.  Steps in source order: normalize
the schema; optional short-circuit for undefined data; union dispatch
(redundant optional re-check, undefined error, first-match loop, union-level
`allowedValues` on a match, error combination on no match); runtime type
check (mismatch returns the single type error); `allowedValues` check;
object structural check (unreachable expected-object guard, declared
properties in order, unexpected-property scan unless `additionalProperties`
is exactly `true`); array structural check (expected-array guard, elements
in index order).  A non-object normalized schema -- only the undefined value,
produced by the empty-array shorthand -- makes the property accesses of the
source throw a `TypeError`, modelled as `.thrown`. -/
def validate (strict : Bool) : Nat → JsonValue → Schema → String → VOut
  | 0, _, _, _ => .out
  | fuel + 1, data, schema, path =>
    match normalizeSchema strict schema with
    | .node n =>
      if data.isUndef && n.optional then .ok []
      else
        match n.oneOf with
        | some alts =>
          if data.isUndef && n.optional then .ok []
          else if data.isUndef then .ok [mkUnionUndefErr path alts.length]
          else
            match tryAlts (fun a => validate strict fuel data a path) alts [] with
            | .matched =>
              match n.allowedValues with
              | some vs =>
                if !primIncludes vs data then .ok [mkValueErr path vs data]
                else .ok []
              | none => .ok []
            | .failed combined =>
              if combined.length > 0 then
                if combined.any (fun e => e.path != path) then
                  .ok (combined.filter (fun e => e.path != path))
                else if combined.any (fun e => e.path == path) then
                  .ok [mkUnionErr path alts.length (getTypeOf data)]
                else .ok []
              else .ok []
            | .thrown => .thrown
            | .out => .out
        | none =>
          let t := getTypeOf data
          if n.dataType ≠ some t then .ok [mkTypeErr path n.dataType t]
          else
            let e1 : List VError :=
              match n.allowedValues with
              | some vs =>
                if !primIncludes vs data then [mkValueErr path vs data] else []
              | none => []
            match n.dataType, n.properties with
            | some .OBJECT, some props =>
              if t != .OBJECT || data.isNull then
                .ok (e1 ++ [mkExpObjErr path t])
              else
                match runProps (validate strict fuel) data.asObj path props with
                | .ok pes =>
                  let ues :=
                    if n.additionalProperties ≠ some true then
                      unexpectedErrs props data.asObj path
                    else []
                  .ok (e1 ++ pes ++ ues)
                | r => r
            | _, _ =>
              match n.dataType, n.items with
              | some .ARRAY, some its =>
                if !data.isArr then .ok (e1 ++ [mkExpArrErr path t])
                else
                  match runItems (validate strict fuel) its path data.asArr 0 with
                  | .ok ies => .ok (e1 ++ ies)
                  | r => r
              | _, _ => .ok e1
    | _ => .thrown

/-- The error list of an `ok` outcome (empty otherwise). -/
def okErrs : VOut → List VError
  | .ok es => es
  | _ => []


lemma tryAlts_failed_of_all_fail (rec : Schema → VOut) (alts : List Schema)
    (hall : ∀ a ∈ alts, ∃ es, rec a = .ok es ∧ es ≠ []) :
    ∀ acc, tryAlts rec alts acc =
      .failed (acc ++ (alts.map (fun a => okErrs (rec a))).flatten) := by
  induction alts with
  | nil => intro acc; simp [tryAlts]
  | cons a rest ih =>
    intro acc
    obtain ⟨es, hes, hne⟩ := hall a (by simp)
    rw [tryAlts]
    match es, hne with
    | e :: es2, _ =>
      simp only [hes]
      rw [ih (fun x hx => hall x (by simp [hx]))]
      simp [okErrs, hes]

/-- C1 (amended): when a union schema is dispatched on defined data and no
alternative validates cleanly, the collected sub-errors decide the result: if
any has a path different from the union's own, exactly those (in first-seen
order, duplicates preserved -- there is no deduplication) are returned;
if all sit at the union's own path, a single generic union error carrying the
classified runtime type of the data is returned. -/
theorem validate_union_no_match (b : Bool) (f : Nat) (data : JsonValue)
    (s : Schema) (path : String) (n : SNode Schema) (alts : List Schema)
    (hn : normalizeSchema b s = .node n) (ho : n.oneOf = some alts)
    (hd : data.isUndef = false)
    (hall : ∀ a ∈ alts, ∃ es, validate b f data a path = .ok es ∧ es ≠ []) :
    ((alts.map (fun a => okErrs (validate b f data a path))).flatten.any
        (fun e => e.path != path) = true →
      validate b (f + 1) data s path =
        .ok ((alts.map (fun a => okErrs (validate b f data a path))).flatten.filter
          (fun e => e.path != path))) ∧
    (alts ≠ [] →
      (∀ e ∈ (alts.map (fun a => okErrs (validate b f data a path))).flatten,
        e.path = path) →
      validate b (f + 1) data s path =
        .ok [mkUnionErr path alts.length (getTypeOf data)]) := by
  have htry := tryAlts_failed_of_all_fail
    (fun a => validate b f data a path) alts hall []
  simp only [List.nil_append] at htry
  have hunf : validate b (f + 1) data s path =
      (if ((alts.map (fun a => okErrs (validate b f data a path))).flatten).length > 0 then
        if ((alts.map (fun a => okErrs (validate b f data a path))).flatten).any
            (fun e => e.path != path) then
          .ok (((alts.map (fun a => okErrs (validate b f data a path))).flatten).filter
            (fun e => e.path != path))
        else if ((alts.map (fun a => okErrs (validate b f data a path))).flatten).any
            (fun e => e.path == path) then
          .ok [mkUnionErr path alts.length (getTypeOf data)]
        else .ok []
      else .ok []) := by
    rw [validate, hn]
    simp [hd, ho, htry]
  constructor
  · intro hany
    rw [hunf]
    have hne : ((alts.map (fun a => okErrs (validate b f data a path))).flatten).length > 0 := by
      rcases List.any_eq_true.mp hany with ⟨e, he, _⟩
      exact List.length_pos_of_mem he
    rw [if_pos hne, if_pos hany]
  · intro hne hallpath
    rw [hunf]
    have hlen : ((alts.map (fun a => okErrs (validate b f data a path))).flatten).length > 0 := by
      match alts, hne with
      | a :: rest, _ =>
        obtain ⟨es, hes, hne2⟩ := hall a (by simp)
        match es, hne2 with
        | e :: es2, _ =>
          have : e ∈ (((a :: rest).map (fun a => okErrs (validate b f data a path))).flatten) := by
            simp [okErrs, hes]
          exact List.length_pos_of_mem this
    rw [if_pos hlen]
    have hnoany : ((alts.map (fun a => okErrs (validate b f data a path))).flatten).any
        (fun e => e.path != path) = false := by
      rw [List.any_eq_false]
      intro e he
      simp [hallpath e he]
    rw [hnoany]
    have hsome : ((alts.map (fun a => okErrs (validate b f data a path))).flatten).any
        (fun e => e.path == path) = true := by
      rw [List.any_eq_true]
      match h2 : (alts.map (fun a => okErrs (validate b f data a path))).flatten, hlen with
      | e :: es2, _ =>
        refine ⟨e, by simp, ?_⟩
        have : e ∈ (alts.map (fun a => okErrs (validate b f data a path))).flatten := by
          rw [h2]; simp
        simp [hallpath e this]
    simp [hsome]

lemma cexC1_altA_eval : validate true 3 (JsonValue.obj [("a", .num 1)])
    (.node { dataType := some .OBJECT,
             properties := some [("a", .node { dataType := some .STRING }),
                                 ("b", .node { dataType := some .STRING })],
             additionalProperties := some false }) "" =
    .ok [mkTypeErr "a" (some .STRING) .NUMBER,
         mkTypeErr "b" (some .STRING) .UNDEFINED] := by
  simp [validate, JsonValue.isUndef, JsonValue.isNull, JsonValue.isArr, JsonValue.asObj,
    getTypeOf, runProps, jsGet, joinPath, unexpectedErrs]

lemma cexC1_altB_eval : validate true 3 (JsonValue.obj [("a", .num 1)])
    (.node { dataType := some .OBJECT,
             properties := some [("a", .node { dataType := some .STRING }),
                                 ("c", .node { dataType := some .STRING })],
             additionalProperties := some false }) "" =
    .ok [mkTypeErr "a" (some .STRING) .NUMBER,
         mkTypeErr "c" (some .STRING) .UNDEFINED] := by
  simp [validate, JsonValue.isUndef, JsonValue.isNull, JsonValue.isArr, JsonValue.asObj,
    getTypeOf, runProps, jsGet, joinPath, unexpectedErrs]

lemma cexC1_norm_eval : normalizeSchema true
    (.node
      { oneOf :=
          some [.node { extra := [("a", .prop .STRING), ("b", .prop .STRING)] },
                .node { extra := [("a", .prop .STRING), ("c", .prop .STRING)] }] }) =
    .node
      { oneOf :=
          some [.node { dataType := some .OBJECT,
                        properties := some [("a", .node { dataType := some .STRING }),
                                            ("b", .node { dataType := some .STRING })],
                        additionalProperties := some false },
                .node { dataType := some .OBJECT,
                        properties := some [("a", .node { dataType := some .STRING }),
                                            ("c", .node { dataType := some .STRING })],
                        additionalProperties := some false }] } := by
  simp [normPropVal]

/-- C1 counterexample: a union of two implicit object alternatives sharing the
failing property `a`; the combined property-level errors are returned without
deduplication -- the error at path `a` appears twice, refuting the claimed
deduplicated result. -/
theorem validate_union_dup_counterexample :
    validate true 4 (JsonValue.obj [("a", .num 1)])
      (.node
        { oneOf :=
            some [.node { extra := [("a", .prop .STRING), ("b", .prop .STRING)] },
                  .node { extra := [("a", .prop .STRING), ("c", .prop .STRING)] }] }) "" =
      .ok [mkTypeErr "a" (some .STRING) .NUMBER,
           mkTypeErr "b" (some .STRING) .UNDEFINED,
           mkTypeErr "a" (some .STRING) .NUMBER,
           mkTypeErr "c" (some .STRING) .UNDEFINED] := by
  rw [validate, cexC1_norm_eval]
  simp [tryAlts, cexC1_altA_eval, cexC1_altB_eval, okErrs, JsonValue.isUndef, getTypeOf,
    mkTypeErr, expectedStr, PropType.str]

theorem validate_union_no_match_witness :
    validate true 4 (JsonValue.obj [("a", .num 1)])
      (.node
        { oneOf :=
            some [.node { extra := [("a", .prop .STRING), ("b", .prop .STRING)] },
                  .node { extra := [("a", .prop .STRING), ("c", .prop .STRING)] }] }) "" =
      .ok (([.node { dataType := some .OBJECT,
                     properties := some [("a", .node { dataType := some .STRING }),
                                         ("b", .node { dataType := some .STRING })],
                     additionalProperties := some false },
             .node { dataType := some .OBJECT,
                     properties := some [("a", .node { dataType := some .STRING }),
                                         ("c", .node { dataType := some .STRING })],
                     additionalProperties := some false }].map
          (fun a => okErrs (validate true 3 (JsonValue.obj [("a", .num 1)]) a ""))).flatten.filter
            (fun e => e.path != "")) := by
  refine (validate_union_no_match true 3 (JsonValue.obj [("a", .num 1)]) _ ""
    { oneOf :=
        some [.node { dataType := some .OBJECT,
                      properties := some [("a", .node { dataType := some .STRING }),
                                          ("b", .node { dataType := some .STRING })],
                      additionalProperties := some false },
              .node { dataType := some .OBJECT,
                      properties := some [("a", .node { dataType := some .STRING }),
                                          ("c", .node { dataType := some .STRING })],
                      additionalProperties := some false }] }
    _ cexC1_norm_eval rfl rfl ?_).1 ?_
  · intro a ha
    simp only [List.mem_cons, List.not_mem_nil, or_false] at ha
    rcases ha with rfl | rfl
    · exact ⟨_, cexC1_altA_eval, by simp⟩
    · exact ⟨_, cexC1_altB_eval, by simp⟩
  · simp [cexC1_altA_eval, cexC1_altB_eval, okErrs, mkTypeErr, expectedStr, PropType.str]

/-- C5: the claim fails on the code.  Validating the data `[1]` against the
empty-array shorthand schema `[]` throws a `TypeError` instead of returning
an error list: normalizing `[]` yields an array schema whose `items` is the
undefined value (`schema[0]` of an empty literal), and the element recursion
then applies property access and the `in` operator to `undefined`. -/
theorem validate_empty_array_shorthand_throws :
    validate true 5 (.arr [.num 1]) (.arr []) "" = .thrown := by
  simp [validate, JsonValue.isUndef, JsonValue.isNull, JsonValue.isArr, JsonValue.asArr,
    getTypeOf, runItems]

/-- C6 (amended): for a non-union canonical schema whose `dataType` differs
from the classified runtime type of the data, `validate` returns exactly the
single type-mismatch error at the current path -- with no allowedValues check
and no structural recursion -- provided the optional short-circuit does not
apply (data undefined with an optional schema). -/
theorem validate_type_mismatch (b : Bool) (f : Nat) (data : JsonValue)
    (s : Schema) (path : String) (n : SNode Schema) (dt : PropType)
    (hn : normalizeSchema b s = .node n) (ho : n.oneOf = none)
    (hdt : n.dataType = some dt) (hm : dt ≠ getTypeOf data)
    (hopt : data.isUndef = false ∨ n.optional = false) :
    validate b (f + 1) data s path =
      .ok [mkTypeErr path (some dt) (getTypeOf data)] := by
  rw [validate, hn]
  have hcond : (data.isUndef && n.optional) = false := by
    rcases hopt with h | h <;> simp [h]
  simp [hcond, ho, hdt, hm]

/-- C6 counterexample: an optional STRING leaf schema and undefined data.
The classified type (undefined) differs from the dataType (string), yet
`validate` returns zero errors, because the optional short-circuit precedes
the type check. -/
theorem validate_type_mismatch_counterexample :
    getTypeOf .undefVal ≠ PropType.STRING ∧
    validate true 2 .undefVal
      (.node { dataType := some .STRING, optional := true }) "" = .ok [] := by
  constructor
  · simp [getTypeOf]
  · simp [validate, JsonValue.isUndef]

theorem validate_type_mismatch_witness :
    validate true 1 (.num 1) (.prop .STRING) "" =
      .ok [mkTypeErr "" (some .STRING) .NUMBER] :=
  validate_type_mismatch true 0 (.num 1) (.prop .STRING) ""
    { dataType := some .STRING } .STRING (by simp) rfl rfl
    (by simp [getTypeOf]) (Or.inl rfl)

/-- C7: error paths extend the parent path with `.key` for object properties
(bare key at the root) and `[i]` for array elements: `{ user: { name: 123 } }`
against the explicit nested schema yields exactly one error at `user.name`,
and `{ tags: ["a", 5] }` against the implicit schema `{ tags: [STRING] }`
yields exactly one error at `tags[1]`. -/
theorem validate_paths :
    (validate true 4 (.obj [("user", .obj [("name", .num 123)])])
        (.node { dataType := some .OBJECT,
                 properties := some
                   [("user", .node { dataType := some .OBJECT,
                                     properties := some [("name", .prop .STRING)] })] }) "" =
      .ok [mkTypeErr "user.name" (some .STRING) .NUMBER]) ∧
    (validate true 4 (.obj [("tags", .arr [.str "a", .num 5])])
        (.node { extra := [("tags", .arr [.prop .STRING])] }) "" =
      .ok [mkTypeErr "tags[1]" (some .STRING) .NUMBER]) := by
  constructor
  · have hname : validate true 2 (.num 123) (.node { dataType := some .STRING })
        "user.name" = .ok [mkTypeErr "user.name" (some .STRING) .NUMBER] := by
      simp [validate, JsonValue.isUndef, getTypeOf]
    have huser : validate true 3 (.obj [("name", .num 123)])
        (.node { dataType := some .OBJECT,
                 properties := some [("name", .node { dataType := some .STRING })] })
        "user" = .ok [mkTypeErr "user.name" (some .STRING) .NUMBER] := by
      rw [validate]
      rw [normalizeSchema_node_object true _ .OBJECT _ rfl rfl rfl]
      simp [runProps, jsGet, joinPath, unexpectedErrs, JsonValue.isUndef, JsonValue.isNull,
        JsonValue.isArr, JsonValue.asObj, getTypeOf, hname]
    rw [validate]
    rw [normalizeSchema_node_object true _ .OBJECT _ rfl rfl rfl]
    simp [runProps, jsGet, joinPath, unexpectedErrs, JsonValue.isUndef, JsonValue.isNull,
      JsonValue.isArr, JsonValue.asObj, getTypeOf, huser]
  · have hp0 : "tags[" ++ toString (0 : Nat) ++ "]" = "tags[0]" := by rfl
    have hp1 : "tags[" ++ toString (1 : Nat) ++ "]" = "tags[1]" := by rfl
    have hi0 : validate true 2 (.str "a") (.node { dataType := some .STRING })
        "tags[0]" = .ok [] := by
      simp [validate, JsonValue.isUndef, getTypeOf]
    have hi1 : validate true 2 (.num 5) (.node { dataType := some .STRING })
        "tags[1]" = .ok [mkTypeErr "tags[1]" (some .STRING) .NUMBER] := by
      simp [validate, JsonValue.isUndef, getTypeOf]
    have htags : validate true 3 (.arr [.str "a", .num 5])
        (.node { dataType := some .ARRAY,
                 items := some (.node { dataType := some .STRING }) }) "tags" =
        .ok [mkTypeErr "tags[1]" (some .STRING) .NUMBER] := by
      rw [validate]
      rw [normalizeSchema_node_plain true _ .ARRAY rfl rfl rfl]
      simp [runItems, JsonValue.isUndef, JsonValue.isNull, JsonValue.isArr, JsonValue.asArr,
        getTypeOf, hp0, hp1, hi0, hi1]
    rw [validate]
    have hnorm : normalizeSchema true (.node { extra := [("tags", .arr [.prop .STRING])] }) =
        .node { dataType := some .OBJECT,
                properties := some
                  [("tags", .node { dataType := some .ARRAY,
                                    items := some (.node { dataType := some .STRING }) })],
                additionalProperties := some false } := by
      simp [normPropVal]
    rw [hnorm]
    simp [runProps, jsGet, joinPath, unexpectedErrs, JsonValue.isUndef, JsonValue.isNull,
      JsonValue.isArr, JsonValue.asObj, getTypeOf, htags]

/-- C8: a union schema whose `oneOf` list is empty accepts every defined
value: the loop collects no sub-errors, the combined list is empty, and no
union error is emitted. -/
theorem validate_empty_union (b : Bool) (f : Nat) (data : JsonValue)
    (path : String) (n : SNode Schema) (ho : n.oneOf = some [])
    (hd : data.isUndef = false) :
    validate b (f + 1) data (.node n) path = .ok [] := by
  rw [validate, normalizeSchema_node_union b n [] ho]
  simp [hd, tryAlts]

theorem validate_empty_union_witness :
    validate true 1 (.num 1) (.node { oneOf := some [] }) "" = .ok [] :=
  validate_empty_union true 0 (.num 1) "" { oneOf := some [] } rfl rfl

/-- C2: with the strict flag true, validating `{ foo: "bar", extra: 123 }`
against the implicit object schema `{ foo: STRING }` yields exactly the
unexpected-property error for `extra`; with the flag false the same call
yields zero errors; and this happens because the implicit schema's
`additionalProperties` is normalized to the negation of the flag. -/
theorem validate_strict_default :
    (validate true 3 (.obj [("foo", .str "bar"), ("extra", .num 123)])
        (.node { extra := [("foo", .prop .STRING)] }) "" =
      .ok [mkUnexpectedErr "" "extra" .NUMBER]) ∧
    (validate false 3 (.obj [("foo", .str "bar"), ("extra", .num 123)])
        (.node { extra := [("foo", .prop .STRING)] }) "" = .ok []) ∧
    (normalizeSchema true (.node { extra := [("foo", .prop .STRING)] }) =
      .node { dataType := some .OBJECT,
              properties := some [("foo", .node { dataType := some .STRING })],
              additionalProperties := some false }) ∧
    (normalizeSchema false (.node { extra := [("foo", .prop .STRING)] }) =
      .node { dataType := some .OBJECT,
              properties := some [("foo", .node { dataType := some .STRING })],
              additionalProperties := some true }) := by
  refine ⟨?_, ?_, ?_, ?_⟩
  · simp [validate, JsonValue.isUndef, JsonValue.isNull, JsonValue.isArr, JsonValue.asObj,
      getTypeOf, runProps, jsGet, joinPath, unexpectedErrs, normPropVal]
  · simp [validate, JsonValue.isUndef, JsonValue.isNull, JsonValue.isArr, JsonValue.asObj,
      getTypeOf, runProps, jsGet, joinPath, unexpectedErrs, normPropVal]
  · simp [normPropVal]
  · simp [normPropVal]

/-- C3: schema normalization is idempotent -- normalizing an already
normalized schema returns it unchanged, for any combination of strict-flag
values at the two calls. -/
theorem normalizeSchema_idem (b1 b2 : Bool) (s : Schema) :
    normalizeSchema b1 (normalizeSchema b2 s) = normalizeSchema b2 s :=
  normalizeSchema_idem_aux (sizeOf s) s (le_refl _) b1 b2

/-- C4 (amended): every node of the canonical schema produced by
normalization carries exactly one of `dataType` / `oneOf`, for surface
schemas in which no node carries both fields and every subtree that
normalization passes through unchanged already satisfies the invariant
(the `preOK` class). -/
theorem normalize_exactlyOne (b : Bool) (s : Schema) (h : preOK s = true) :
    exactlyOneB (normalizeSchema b s) = true :=
  exactlyOne_norm_aux (sizeOf s) s (le_refl _) b h

/-- C4 counterexample: the explicit array schema whose `items` is the empty
object literal is returned unchanged by normalization (fallback branch),
leaving an items node that carries neither `dataType` nor `oneOf`. -/
theorem normalize_exactlyOne_counterexample :
    exactlyOneB (normalizeSchema true
      (.node { dataType := some .ARRAY, items := some (.node {}) })) = false := by
  rw [normalizeSchema_node_plain true _ .ARRAY rfl rfl rfl]
  simp [exactlyOneB, exactlyOneOB, exactlyOneOListB, exactlyOneOPairsB, exactlyOnePairsB]

theorem normalize_exactlyOne_witness :
    preOK (.node { extra := [("foo", .prop .STRING)] }) = true ∧
    exactlyOneB (normalizeSchema true
      (.node { extra := [("foo", .prop .STRING)] })) = true := by
  have hp : preOK (.node { extra := [("foo", .prop .STRING)] }) = true := by
    simp [preOK, preOKPairs, preOKList]
  exact ⟨hp, normalize_exactlyOne true _ hp⟩

lemma isNull_eq_false_of_obj (data : JsonValue) (h : getTypeOf data = .OBJECT) :
    data.isNull = false := by
  cases data <;> simp_all [getTypeOf, JsonValue.isNull]

lemma isArr_eq_true_of_arr (data : JsonValue) (h : getTypeOf data = .ARRAY) :
    data.isArr = true := by
  cases data <;> simp_all [getTypeOf, JsonValue.isArr]

lemma tryAlts_failed_imp (rec : Schema → VOut) :
    ∀ (alts : List Schema) (acc combined : List VError),
      tryAlts rec alts acc = .failed combined →
      ∀ a ∈ alts, ∃ es, rec a = .ok es ∧ es ≠ [] := by
  intro alts
  induction alts with
  | nil =>
    intro acc combined h a ha
    simp at ha
  | cons a rest ih =>
    intro acc combined h x hx
    rw [tryAlts] at h
    cases hra : rec a with
    | ok es =>
      cases es with
      | nil =>
        rw [hra] at h
        simp at h
      | cons e es2 =>
        rw [hra] at h
        simp only [] at h
        rcases List.mem_cons.mp hx with rfl | hx2
        · exact ⟨e :: es2, hra, by simp⟩
        · exact ih _ _ h x hx2
    | thrown =>
      rw [hra] at h
      simp at h
    | out =>
      rw [hra] at h
      simp at h

/-- C10 (amended): a schema whose `allowedValues` is the empty list rejects
every value whose classified type matches (first half: non-union schemas;
second half: a union with a matching alternative), whenever `validate`
returns an error list at all and the undefined-data short-circuits do not
apply: the returned list contains (leads with) the value-restriction error,
because the code tests only for the presence of `allowedValues`, not for
non-emptiness. -/
theorem validate_empty_allowed :
    (∀ (b : Bool) (f : Nat) (data : JsonValue) (s : Schema) (path : String)
        (n : SNode Schema) (es : List VError),
      normalizeSchema b s = .node n → n.oneOf = none →
      n.allowedValues = some [] → n.dataType = some (getTypeOf data) →
      (data.isUndef = false ∨ n.optional = false) →
      validate b (f + 1) data s path = .ok es →
      ∃ rest, es = mkValueErr path [] data :: rest) ∧
    (∀ (b : Bool) (f : Nat) (data : JsonValue) (s : Schema) (path : String)
        (n : SNode Schema) (alts : List Schema) (es : List VError),
      normalizeSchema b s = .node n → n.oneOf = some alts →
      n.allowedValues = some [] → data.isUndef = false →
      (∃ a ∈ alts, validate b f data a path = .ok []) →
      validate b (f + 1) data s path = .ok es →
      es = [mkValueErr path [] data]) := by
  constructor
  · intro b f data s path n es hn ho hav hdt hopt hres
    rw [validate, hn] at hres
    have hcond : (data.isUndef && n.optional) = false := by
      rcases hopt with h | h <;> simp [h]
    simp only [hcond, Bool.false_eq_true, if_false, ho] at hres
    simp only [hdt, ne_eq, not_true_eq_false, if_false, hav, primIncludes, List.any_nil,
      Bool.not_false, if_true, reduceIte] at hres
    split at hres
    · rename_i props heq1 heq2
      injection heq1 with heq1
      rw [heq1, isNull_eq_false_of_obj data heq1] at hres
      simp only [bne_self_eq_false, Bool.or_false, Bool.false_eq_true, if_false] at hres
      cases hrp : runProps (validate b f) data.asObj path props with
      | ok pes =>
        rw [hrp] at hres
        cases hres
        exact ⟨_, rfl⟩
      | thrown =>
        rw [hrp] at hres
        cases hres
      | out =>
        rw [hrp] at hres
        cases hres
    · split at hres
      · rename_i its heq1 heq2
        injection heq1 with heq1
        rw [isArr_eq_true_of_arr data heq1] at hres
        simp only [Bool.not_true, Bool.false_eq_true, if_false] at hres
        cases hri : runItems (validate b f) its path data.asArr 0 with
        | ok ies =>
          rw [hri] at hres
          cases hres
          exact ⟨_, rfl⟩
        | thrown =>
          rw [hri] at hres
          cases hres
        | out =>
          rw [hri] at hres
          cases hres
      · cases hres
        exact ⟨[], rfl⟩
  · intro b f data s path n alts es hn ho hav hd hex hres
    rw [validate, hn] at hres
    simp only [hd, Bool.false_and, Bool.false_eq_true, if_false, ho] at hres
    cases htry : tryAlts (fun a => validate b f data a path) alts [] with
    | matched =>
      rw [htry] at hres
      simp only [hav, primIncludes, List.any_nil, Bool.not_false, if_true, reduceIte] at hres
      cases hres
      rfl
    | failed combined =>
      exfalso
      obtain ⟨a, ha, hok⟩ := hex
      obtain ⟨es2, hes2, hne⟩ := tryAlts_failed_imp _ _ _ _ htry a ha
      rw [hok] at hes2
      injection hes2 with hes2
      exact hne hes2.symm
    | thrown =>
      rw [htry] at hres
      cases hres
    | out =>
      rw [htry] at hres
      cases hres

/-- C10 counterexample: an optional UNDEFINED leaf with empty `allowedValues`
and undefined data -- the classified type matches the dataType, yet no
value-restriction error is emitted, because the optional short-circuit
precedes the allowedValues check. -/
theorem validate_empty_allowed_counterexample :
    getTypeOf .undefVal = PropType.UNDEFINED ∧
    validate true 2 .undefVal
      (.node { dataType := some .UNDEFINED, optional := true,
               allowedValues := some [] }) "" = .ok [] := by
  constructor
  · rfl
  · simp [validate, JsonValue.isUndef]

theorem validate_empty_allowed_witness :
    (∃ rest, ([mkValueErr "" [] (.num 1)] : List VError) =
      mkValueErr "" [] (.num 1) :: rest) ∧
    (([mkValueErr "" [] (.num 2)] : List VError) = [mkValueErr "" [] (.num 2)]) := by
  constructor
  · exact validate_empty_allowed.1 true 0 (.num 1)
      (.node { dataType := some .NUMBER, allowedValues := some [] }) ""
      { dataType := some .NUMBER, allowedValues := some [] }
      [mkValueErr "" [] (.num 1)] (by simp) rfl rfl rfl (Or.inl rfl)
      (by simp [validate, JsonValue.isUndef, getTypeOf, primIncludes])
  · exact validate_empty_allowed.2 true 1 (.num 2)
      (.node { oneOf := some [.prop .NUMBER], allowedValues := some [] }) ""
      { oneOf := some [.node { dataType := some .NUMBER }],
        allowedValues := some [] }
      [.node { dataType := some .NUMBER }]
      [mkValueErr "" [] (.num 2)] (by simp) rfl rfl rfl
      ⟨.node { dataType := some .NUMBER }, by simp,
        by simp [validate, JsonValue.isUndef, getTypeOf]⟩
      (by simp [validate, JsonValue.isUndef, getTypeOf, primIncludes, tryAlts])

lemma mkTypeErr_ne_expObj (p : String) (dt : Option PropType) (t : PropType)
    (p2 : String) (r : PropType) : mkTypeErr p dt t ≠ mkExpObjErr p2 r := by
  intro h
  have h9 : (some 't' : Option Char) = some 'o' :=
    congrArg (fun e => e.message.data[9]?) h
  exact absurd h9 (by decide)

lemma mkExpArrErr_ne_expObj (p : String) (t : PropType)
    (p2 : String) (r : PropType) : mkExpArrErr p t ≠ mkExpObjErr p2 r := by
  intro h
  have h9 : (some 'a' : Option Char) = some 'o' :=
    congrArg (fun e => e.message.data[9]?) h
  exact absurd h9 (by decide)

lemma mkValueErr_ne_expObj (p : String) (vs : List Prim) (d : JsonValue)
    (p2 : String) (r : PropType) : mkValueErr p vs d ≠ mkExpObjErr p2 r := by
  intro h
  have h0 : (some 'V' : Option Char) = some 'E' :=
    congrArg (fun e => e.message.data[0]?) h
  exact absurd h0 (by decide)

lemma mkUnionUndefErr_ne_expObj (p : String) (c : Nat)
    (p2 : String) (r : PropType) : mkUnionUndefErr p c ≠ mkExpObjErr p2 r := by
  intro h
  have h0 : (some 'V' : Option Char) = some 'E' :=
    congrArg (fun e => e.message.data[0]?) h
  exact absurd h0 (by decide)

lemma mkUnionErr_ne_expObj (p : String) (c : Nat) (t : PropType)
    (p2 : String) (r : PropType) : mkUnionErr p c t ≠ mkExpObjErr p2 r := by
  intro h
  have h0 : (some 'V' : Option Char) = some 'E' :=
    congrArg (fun e => e.message.data[0]?) h
  exact absurd h0 (by decide)

lemma mkUnexpectedErr_ne_expObj (p k : String) (t : PropType)
    (p2 : String) (r : PropType) : mkUnexpectedErr p k t ≠ mkExpObjErr p2 r := by
  intro h
  have h0 : (some 'U' : Option Char) = some 'E' :=
    congrArg (fun e => e.message.data[0]?) h
  exact absurd h0 (by decide)

lemma mem_unexpectedErrs (props : List (String × Schema))
    (fields : List (String × JsonValue)) (path : String) :
    ∀ e ∈ unexpectedErrs props fields path,
      ∃ k t, e = mkUnexpectedErr path k t := by
  intro e he
  simp only [unexpectedErrs, List.mem_map] at he
  obtain ⟨fp, _, rfl⟩ := he
  exact ⟨fp.1, _, rfl⟩

lemma tryAlts_failed_mem (rec : Schema → VOut) :
    ∀ (alts : List Schema) (acc combined : List VError),
      tryAlts rec alts acc = .failed combined →
      ∀ e ∈ combined, e ∈ acc ∨ ∃ a ∈ alts, ∃ es, rec a = .ok es ∧ e ∈ es := by
  intro alts
  induction alts with
  | nil =>
    intro acc combined h e he
    rw [tryAlts] at h
    cases h
    exact Or.inl he
  | cons a rest ih =>
    intro acc combined h e he
    rw [tryAlts] at h
    cases hra : rec a with
    | ok es1 =>
      cases es1 with
      | nil =>
        rw [hra] at h
        simp at h
      | cons e1 es2 =>
        rw [hra] at h
        simp only [] at h
        rcases ih _ _ h e he with hacc | ⟨a2, ha2, es3, hok, hmem⟩
        · rcases List.mem_append.mp hacc with h1 | h2
          · exact Or.inl h1
          · exact Or.inr ⟨a, List.mem_cons_self a rest, e1 :: es2, hra, h2⟩
        · exact Or.inr ⟨a2, List.mem_cons_of_mem a ha2, es3, hok, hmem⟩
    | thrown =>
      rw [hra] at h
      simp at h
    | out =>
      rw [hra] at h
      simp at h

lemma runProps_ok_mem (rec : JsonValue → Schema → String → VOut)
    (fields : List (String × JsonValue)) (path : String) :
    ∀ (props : List (String × Schema)) (pes : List VError),
      runProps rec fields path props = .ok pes →
      ∀ e ∈ pes, ∃ k psch es2, (k, psch) ∈ props ∧
        rec (jsGet fields k) psch (joinPath path k) = .ok es2 ∧ e ∈ es2 := by
  intro props
  induction props with
  | nil =>
    intro pes h e he
    rw [runProps] at h
    cases h
    simp at he
  | cons kp rest ih =>
    obtain ⟨key, psch⟩ := kp
    intro pes h e he
    rw [runProps] at h
    cases hr1 : rec (jsGet fields key) psch (joinPath path key) with
    | ok es1 =>
      rw [hr1] at h
      cases hr2 : runProps rec fields path rest with
      | ok es2 =>
        rw [hr2] at h
        cases h
        rcases List.mem_append.mp he with h1 | h2
        · exact ⟨key, psch, es1, List.mem_cons_self _ _, hr1, h1⟩
        · obtain ⟨k, ps2, es3, hmem, hok, hin⟩ := ih es2 hr2 e h2
          exact ⟨k, ps2, es3, List.mem_cons_of_mem _ hmem, hok, hin⟩
      | thrown =>
        rw [hr2] at h
        cases h
      | out =>
        rw [hr2] at h
        cases h
    | thrown =>
      rw [hr1] at h
      cases h
    | out =>
      rw [hr1] at h
      cases h

lemma runItems_ok_mem (rec : JsonValue → Schema → String → VOut)
    (its : Schema) (path : String) :
    ∀ (xs : List JsonValue) (i : Nat) (ies : List VError),
      runItems rec its path xs i = .ok ies →
      ∀ e ∈ ies, ∃ (x : JsonValue) (j : Nat) (es2 : List VError), x ∈ xs ∧
        rec x its (path ++ "[" ++ toString j ++ "]") = .ok es2 ∧ e ∈ es2 := by
  intro xs
  induction xs with
  | nil =>
    intro i ies h e he
    rw [runItems] at h
    cases h
    simp at he
  | cons x rest ih =>
    intro i ies h e he
    rw [runItems] at h
    cases hr1 : rec x its (path ++ "[" ++ toString i ++ "]") with
    | ok es1 =>
      rw [hr1] at h
      cases hr2 : runItems rec its path rest (i + 1) with
      | ok es2 =>
        rw [hr2] at h
        cases h
        rcases List.mem_append.mp he with h1 | h2
        · exact ⟨x, i, es1, List.mem_cons_self _ _, hr1, h1⟩
        · obtain ⟨x2, j, es3, hx, hok, hin⟩ := ih (i + 1) es2 hr2 e h2
          exact ⟨x2, j, es3, List.mem_cons_of_mem _ hx, hok, hin⟩
      | thrown =>
        rw [hr2] at h
        cases h
      | out =>
        rw [hr2] at h
        cases h
    | thrown =>
      rw [hr1] at h
      cases h
    | out =>
      rw [hr1] at h
      cases h

/-- C9: the `Expected object but received ...` error of the object structural
check is unreachable -- whenever `validate` returns an error list, no entry of
it is an expected-object error, for any data value, schema, path, strict flag
and sufficient fuel: the preceding runtime type check already guarantees the
data's classified type is object (hence non-null, non-array) when that branch
is reached. -/
theorem validate_no_expObj :
    ∀ (f : Nat) (b : Bool) (data : JsonValue) (s : Schema) (path : String)
      (es : List VError), validate b f data s path = .ok es →
      ∀ e ∈ es, ∀ p r, e ≠ mkExpObjErr p r := by
  intro f
  induction f with
  | zero =>
    intro b data s path es h
    rw [validate] at h
    cases h
  | succ f ih =>
    intro b data s path es h e he p r
    rw [validate] at h
    cases hn : normalizeSchema b s with
    | node n =>
      rw [hn] at h
      simp only [] at h
      by_cases hopt : (data.isUndef && n.optional) = true
      · rw [if_pos hopt] at h
        cases h
        simp at he
      · rw [if_neg hopt] at h
        cases ho : n.oneOf with
        | some alts =>
          rw [ho] at h
          simp only [] at h
          rw [if_neg hopt] at h
          by_cases hu : data.isUndef = true
          · rw [if_pos hu] at h
            cases h
            simp at he
            rw [he]
            exact mkUnionUndefErr_ne_expObj path alts.length p r
          · rw [if_neg hu] at h
            cases htry : tryAlts (fun a => validate b f data a path) alts [] with
            | matched =>
              rw [htry] at h
              cases hav : n.allowedValues with
              | some vs =>
                rw [hav] at h
                simp only [] at h
                by_cases hpi : (!primIncludes vs data) = true
                · rw [if_pos hpi] at h
                  cases h
                  simp at he
                  rw [he]
                  exact mkValueErr_ne_expObj path vs data p r
                · rw [if_neg hpi] at h
                  cases h
                  simp at he
              | none =>
                rw [hav] at h
                simp only [] at h
                cases h
                simp at he
            | failed combined =>
              rw [htry] at h
              simp only [] at h
              split at h
              · split at h
                · cases h
                  have hin := (List.mem_filter.mp he).1
                  rcases tryAlts_failed_mem _ alts [] combined htry e hin with
                    hacc | ⟨a, ha, es2, hok, hmem⟩
                  · simp at hacc
                  · exact ih b data a path es2 hok e hmem p r
                · split at h
                  · cases h
                    simp at he
                    rw [he]
                    exact mkUnionErr_ne_expObj path alts.length (getTypeOf data) p r
                  · cases h
                    simp at he
              · cases h
                simp at he
            | thrown =>
              rw [htry] at h
              cases h
            | out =>
              rw [htry] at h
              cases h
        | none =>
          rw [ho] at h
          simp only [] at h
          by_cases hdt : n.dataType = some (getTypeOf data)
          · simp only [hdt, ne_eq, not_true_eq_false, if_false, reduceIte] at h
            split at h
            · rename_i props heq1 heq2
              injection heq1 with hO
              split at h
              · rename_i hguard
                rw [hO, isNull_eq_false_of_obj data hO] at hguard
                simp at hguard
              · cases hrp : runProps (validate b f) data.asObj path props with
                | ok pes =>
                  rw [hrp] at h
                  simp only [] at h
                  cases h
                  rcases List.mem_append.mp he with h12 | h3
                  · rcases List.mem_append.mp h12 with h1 | h2
                    · cases hav : n.allowedValues with
                      | none =>
                        rw [hav] at h1
                        simp at h1
                      | some vs =>
                        rw [hav] at h1
                        simp only [] at h1
                        by_cases hpi : (!primIncludes vs data) = true
                        · rw [if_pos hpi] at h1
                          simp at h1
                          rw [h1]
                          exact mkValueErr_ne_expObj path vs data p r
                        · rw [if_neg hpi] at h1
                          simp at h1
                    · obtain ⟨k, psch, es2, _, hok, hin⟩ :=
                        runProps_ok_mem (validate b f) data.asObj path props pes hrp e h2
                      exact ih b (jsGet data.asObj k) psch (joinPath path k) es2 hok e hin p r
                  · by_cases hap : (n.additionalProperties ≠ some true)
                    · rw [if_pos hap] at h3
                      obtain ⟨k, t2, rfl⟩ :=
                        mem_unexpectedErrs props data.asObj path e h3
                      exact mkUnexpectedErr_ne_expObj path k t2 p r
                    · rw [if_neg hap] at h3
                      simp at h3
                | thrown =>
                  rw [hrp] at h
                  cases h
                | out =>
                  rw [hrp] at h
                  cases h
            · split at h
              · rename_i its heq1 heq2
                injection heq1 with hA
                split at h
                · rename_i hguard
                  rw [isArr_eq_true_of_arr data hA] at hguard
                  simp at hguard
                · cases hri : runItems (validate b f) its path data.asArr 0 with
                  | ok ies =>
                    rw [hri] at h
                    cases h
                    rcases List.mem_append.mp he with h1 | h2
                    · cases hav : n.allowedValues with
                      | none =>
                        rw [hav] at h1
                        simp at h1
                      | some vs =>
                        rw [hav] at h1
                        simp only [] at h1
                        by_cases hpi : (!primIncludes vs data) = true
                        · rw [if_pos hpi] at h1
                          simp at h1
                          rw [h1]
                          exact mkValueErr_ne_expObj path vs data p r
                        · rw [if_neg hpi] at h1
                          simp at h1
                    · obtain ⟨x, j, es2, _, hok, hin⟩ :=
                        runItems_ok_mem (validate b f) its path data.asArr 0 ies hri e h2
                      exact ih b x its (path ++ "[" ++ toString j ++ "]") es2 hok e hin p r
                  | thrown =>
                    rw [hri] at h
                    cases h
                  | out =>
                    rw [hri] at h
                    cases h
              · cases h
                cases hav : n.allowedValues with
                | none =>
                  rw [hav] at he
                  simp at he
                | some vs =>
                  rw [hav] at he
                  simp only [] at he
                  by_cases hpi : (!primIncludes vs data) = true
                  · rw [if_pos hpi] at he
                    simp at he
                    rw [he]
                    exact mkValueErr_ne_expObj path vs data p r
                  · rw [if_neg hpi] at he
                    simp at he
          · simp only [ne_eq, eq_false hdt, not_false_eq_true, if_true] at h
            cases h
            simp at he
            rw [he]
            exact mkTypeErr_ne_expObj path n.dataType (getTypeOf data) p r
    | undefVal =>
      rw [hn] at h
      simp at h
    | prop t =>
      rw [hn] at h
      simp at h
    | arr xs =>
      rw [hn] at h
      simp at h

theorem validate_no_expObj_witness :
    mkTypeErr "" (some .STRING) .NUMBER ≠ mkExpObjErr "x" .NUMBER := by
  exact validate_no_expObj 1 true (.num 1) (.prop .STRING) ""
    [mkTypeErr "" (some .STRING) .NUMBER]
    (by simp [validate, getTypeOf, JsonValue.isUndef])
    (mkTypeErr "" (some .STRING) .NUMBER) (by simp) "x" .NUMBER

end RV
